import Mathlib

/-
  Shallow embedding of the host-side benchmarking harness of the Lab_GPU
  repository (src/main_sum.cpp and src/main_matrix_multiplication.cpp),
  together with theorems settling the frozen claims about it.

  Machine integers are modelled as Nat with explicit reduction modulo 2^32
  where the C type `unsigned int` overflows; the `double` values of the
  matrix validator are modelled as rationals; the statement sequence of the
  benchmarking blocks (buffer uploads, kernel launches, downloads,
  validations) is modelled as an explicit event trace; exceptions thrown by
  `raiseFail` are modelled with an explicit error component.
-/

namespace LabGPU

/-- Size of the value space of the C type `unsigned int`: 2^32. -/
def U32 : ℕ := 2 ^ 32

/-- The constant `std::numeric_limits<unsigned int>::max()`. -/
def UINT_MAX : ℕ := 2 ^ 32 - 1

/-- C `unsigned int` addition (`sum += as[i]`): addition modulo 2^32. -/
def addU32 (a b : ℕ) : ℕ := (a + b) % U32

/-- Both programs run `benchmarkingIters = 10` trials per variant. -/
def benchmarkingIters : ℕ := 10

/-- One observable step of a benchmarking block: a host-to-device buffer
upload (`writeN`), a device-to-host download (`readN`), a kernel
compilation, a kernel launch (`exec`), or a validation of the candidate
result against the reference. -/
inductive Event where
  | writeBuf (buf : String)
  | readBuf (buf : String)
  | compile (kernel : String)
  | launch (kernel : String)
  | validate (kernel : String)
deriving DecidableEq, Repr

/-- Recognises a kernel-launch event. -/
def isLaunch : Event → Bool
  | Event.launch _ => true
  | _ => false

/-- Recognises a validation event. -/
def isValidate : Event → Bool
  | Event.validate _ => true
  | _ => false

/-- Scans a trace and checks that an event satisfying `P` occurs strictly
between every two consecutive launch events; when started with
`afterL = true` it additionally requires such an event before the first
launch. `found` records whether a `P`-event has occurred since the most
recent launch. -/
def betweenLaunches (P : Event → Bool) : Bool → Bool → List Event → Bool
  | _, _, [] => true
  | afterL, found, e :: tr =>
    if isLaunch e then
      (!afterL || found) && betweenLaunches P true false tr
    else
      betweenLaunches P afterL (found || P e) tr

namespace MainSum

/-- The element count `n = 100*1000*1000` of main_sum.cpp. -/
def n : ℕ := 100 * 1000 * 1000

/-- `raiseFail(a, b, message, ...)`: throws `std::runtime_error(message)`
when the two values differ, modelled as an `Except` value. -/
def raiseFail (a b : ℕ) (message : String) : Except String Unit :=
  if a ≠ b then Except.error message else Except.ok ()

/-- The accumulation of `reference_sum += as[i]` over the generated array
in the generation loop of main_sum.cpp (`unsigned int` arithmetic). -/
def reference_sum (as : List ℕ) : ℕ := as.foldl addU32 0

/-- The sequential CPU benchmark loop `for i: sum += as[i]`
(`unsigned int` arithmetic). -/
def cpuSum (as : List ℕ) : ℕ := as.foldl addU32 0

/-- The OpenMP loop `reduction(+:sum)`: the iteration space is split into
contiguous chunks, each thread accumulates its chunk into a private
partial sum starting from 0, and the partial sums are combined into the
shared accumulator. All additions are `unsigned int` additions. -/
def ompSum (chunks : List (List ℕ)) : ℕ := (chunks.map cpuSum).foldl addU32 0

/-- Modelled from the spec: the generator call
`r.next(0, std::numeric_limits<unsigned int>::max() / n)` draws each value
from the inclusive range `[0, UINT_MAX / n]` (FastRandom lives in
libutils/fast_random.h, which is outside src/). -/
def generatedInRange (count : ℕ) (as : List ℕ) : Prop :=
  ∀ x ∈ as, x ≤ UINT_MAX / count

/-- The body of one GPU variant benchmarking loop of main_sum.cpp applied
to `iters` remaining trials starting at trial index `start`, where
`results i` is the value read back from `result_gpu` after trial `i`.
Returns how many trials ran together with the message of the exception
thrown by `EXPECT_THE_SAME(reference_sum, result, ...)`, if any. -/
def trialLoop (referenceSum : ℕ) (results : ℕ → ℕ) (start : ℕ) : ℕ → ℕ × Option String
  | 0 => (0, none)
  | iters + 1 =>
    match raiseFail referenceSum (results start) "GPU result must be equal to CPU result!" with
    | Except.error m => (1, some m)
    | Except.ok _ =>
      let r := trialLoop referenceSum results (start + 1) iters
      (r.1 + 1, r.2)

/-- The chain of GPU variant blocks of main_sum.cpp: an exception thrown
inside one block is not caught anywhere, so it terminates `main` and the
remaining variants never run. Returns the list of variants that ran with
the number of trials each executed, and the fatal error, if any. -/
def variantLoop (referenceSum : ℕ) (results : String → ℕ → ℕ) : List String → List (String × ℕ) × Option String
  | [] => ([], none)
  | v :: vs =>
    let r := trialLoop referenceSum (results v) 0 benchmarkingIters
    match r.2 with
    | some m => ([(v, r.1)], some m)
    | none =>
      let rest := variantLoop referenceSum results vs
      ((v, r.1) :: rest.1, rest.2)

/-- The five GPU kernels benchmarked by main_sum.cpp, in program order. -/
def kernels : List String :=
  ["sum_naive", "sum_loop", "sum_loop_coalesced", "sum_local", "sum_tree"]

/-- `workGroupSize = 128` in every variant block of main_sum.cpp. -/
def workGroupSize : ℕ := 128

/-- The `global_work_size` computed in each variant block of main_sum.cpp:
`n` (naive, local, tree) or `n / 64` (loop, loop_coalesced) rounded up to
the next multiple of `workGroupSize`. -/
def globalWorkSize (kernel : String) : ℕ :=
  if kernel == "sum_loop" || kernel == "sum_loop_coalesced" then
    (n / 64 + workGroupSize - 1) / workGroupSize * workGroupSize
  else
    (n + workGroupSize - 1) / workGroupSize * workGroupSize

/-- The events of one trial of a GPU variant of main_sum.cpp: write the
zeroed accumulator into `result_gpu`, launch the kernel, read the result
back, and validate it against `reference_sum` via `EXPECT_THE_SAME`. -/
def trialEvents (kernel : String) : List Event :=
  [Event.writeBuf "result_gpu", Event.launch kernel,
   Event.readBuf "result_gpu", Event.validate kernel]

/-- The events of one GPU variant block of main_sum.cpp: compile the
kernel, then run `benchmarkingIters` trials. -/
def variantEvents (kernel : String) : List Event :=
  Event.compile kernel :: (List.range benchmarkingIters).flatMap (fun _ => trialEvents kernel)

/-- The device-interaction events of main_sum.cpp in program order: the
input array `as` is uploaded into `as_gpu` once, before all variant
blocks; then the five variant blocks run. -/
def harnessEvents : List Event :=
  Event.writeBuf "as_gpu" :: kernels.flatMap variantEvents

/-- Recognises an upload of the workload input buffer of main_sum.cpp. -/
def isInputUpload : Event → Bool
  | Event.writeBuf b => b == "as_gpu"
  | _ => false

/-- Recognises the per-trial write of the zeroed accumulator. -/
def isResultWrite : Event → Bool
  | Event.writeBuf b => b == "result_gpu"
  | _ => false

/-- Recognises the per-trial download of the result. -/
def isResultRead : Event → Bool
  | Event.readBuf b => b == "result_gpu"
  | _ => false

end MainSum

namespace MainMatrix

/-- The matrix dimension `M = 1024`. -/
def M : ℕ := 1024

/-- The matrix dimension `K = 1024`. -/
def K : ℕ := 1024

/-- The matrix dimension `N = 1024`. -/
def N : ℕ := 1024

/-- The constant `gflops = ((size_t) M * K * N * 2) / (1000 * 1000 * 1000)`
of main_matrix_multiplication.cpp. This is C integer division. -/
def gflops : ℕ := M * K * N * 2 / (1000 * 1000 * 1000)

/-- The throughput printed for every configuration:
`gflops / t.lapAvg()`. -/
def reportedThroughput (lapAvg : ℚ) : ℚ := (gflops : ℚ) / lapAvg

/-- Follows the words of the claim, for comparison with
`reportedThroughput`: the operation count `2*M*K*N` divided by `10^9`
(exactly, without truncation) and then by the mean per-trial latency. -/
def specThroughput (lapAvg : ℚ) : ℚ := ((2 * M * K * N : ℕ) : ℚ) / 10 ^ 9 / lapAvg

/-- One iteration of the difference loop of the validator: when either the
candidate value `p.1` or the reference value `p.2` is nonzero, add
`fabs(a - b) / max(fabs(a), fabs(b))` to the accumulator, else leave the
accumulator unchanged. -/
def diffStep (s : ℚ) (p : ℚ × ℚ) : ℚ :=
  if p.1 ≠ 0 ∨ p.2 ≠ 0 then s + |p.1 - p.2| / max |p.1| |p.2| else s

/-- The accumulator `diff_sum` after the difference loop has run over all
(candidate, reference) element pairs. -/
def diff_sum (cs ref : List ℚ) : ℚ := (cs.zip ref).foldl diffStep 0

/-- The average difference `diff_avg = diff_sum / (M * N)`. -/
def diff_avg (cs ref : List ℚ) : ℚ := diff_sum cs ref / ((M * N : ℕ) : ℚ)

/-- The verdict of a variant block: the block executes `return 1` when
`diff_avg > 0.01`, so the variant passes exactly when that test fails. -/
def variantPasses (cs ref : List ℚ) : Prop := ¬ diff_avg cs ref > 1 / 100

/-- Follows the specification glossary, for comparison with the validator:
the relative error of two values. -/
def specRelErr (a b : ℚ) : ℚ := |a - b| / max |a| |b|

/-- Follows the words of the claim, for comparison with the validator: the
contribution of one element pair, zero when both values are zero. -/
def specRelErrTerm (a b : ℚ) : ℚ := if a ≠ 0 ∨ b ≠ 0 then specRelErr a b else 0

/-- The tail of `main` of main_matrix_multiplication.cpp as a function of
the average difference computed by each successive variant block: a block
whose `diff_avg` exceeds 0.01 prints the diagnostic and executes
`return 1` at once; after all blocks `main` returns 0. The result pairs
the number of variant blocks that executed with the exit status. -/
def runVariants : List ℚ → ℕ × ℕ
  | [] => (0, 0)
  | d :: ds =>
    if d > 1 / 100 then (1, 1)
    else
      let r := runVariants ds
      (r.1 + 1, r.2)

/-- The three GPU kernels benchmarked by main_matrix_multiplication.cpp,
in program order. -/
def kernels : List String :=
  ["matrix_multiplication_naive", "matrix_multiplication_block", "matrix_multiplication_many"]

/-- A two-dimensional launch geometry (`gpu::WorkSize`). -/
structure WorkSize2D where
  groupX : ℕ
  groupY : ℕ
  globalX : ℕ
  globalY : ℕ

/-- The launch geometry of each variant block of
main_matrix_multiplication.cpp: 16 by 16 work groups over an `N` by `M`
global extent, except the many-outputs variant, which uses 16 by 16/4
groups over an `N` by `M/4` extent. -/
def workSizeOf (kernel : String) : WorkSize2D :=
  if kernel == "matrix_multiplication_many" then
    ⟨16, 16 / 4, N, M / 4⟩
  else
    ⟨16, 16, N, M⟩

/-- The events of one variant block of main_matrix_multiplication.cpp:
upload both input matrices, compile the kernel, run the benchmarking loop
(whose body only launches the kernel), read the output back once, and
validate it once. -/
def variantEvents (kernel : String) : List Event :=
  [Event.writeBuf "as_gpu", Event.writeBuf "bs_gpu", Event.compile kernel]
    ++ (List.range benchmarkingIters).flatMap (fun _ => [Event.launch kernel])
    ++ [Event.readBuf "cs_gpu", Event.validate kernel]

/-- The device-interaction events of main_matrix_multiplication.cpp in
program order: the three variant blocks, each with its own uploads. -/
def harnessEvents : List Event := kernels.flatMap variantEvents

/-- Recognises an upload of a workload input buffer of
main_matrix_multiplication.cpp. -/
def isInputUpload : Event → Bool
  | Event.writeBuf b => b == "as_gpu" || b == "bs_gpu"
  | _ => false

/-- Recognises the download of the output buffer. -/
def isOutputDownload : Event → Bool
  | Event.readBuf b => b == "cs_gpu"
  | _ => false

end MainMatrix

/-! Helper lemmas. -/

theorem U32_pos : 0 < U32 := by norm_num [U32]

theorem addU32_lt (a b : ℕ) : addU32 a b < U32 := Nat.mod_lt _ U32_pos

theorem foldl_addU32 (l : List ℕ) :
    ∀ init : ℕ, init < U32 → l.foldl addU32 init = (init + l.sum) % U32 := by
  induction l with
  | nil =>
    intro init h
    simp [Nat.mod_eq_of_lt h]
  | cons a t ih =>
    intro init h
    rw [List.foldl_cons, ih (addU32 init a) (addU32_lt init a)]
    simp only [addU32, List.sum_cons]
    rw [Nat.mod_add_mod, Nat.add_assoc]

theorem cpuSum_eq_mod (l : List ℕ) : MainSum.cpuSum l = l.sum % U32 := by
  unfold MainSum.cpuSum
  rw [foldl_addU32 l 0 U32_pos, Nat.zero_add]

theorem ompSum_eq_mod (chunks : List (List ℕ)) :
    MainSum.ompSum chunks = chunks.flatten.sum % U32 := by
  unfold MainSum.ompSum
  rw [foldl_addU32 _ 0 U32_pos, Nat.zero_add, List.sum_flatten]
  have h1 : chunks.map MainSum.cpuSum = chunks.map (fun c => c.sum % U32) :=
    List.map_congr_left (fun c _ => cpuSum_eq_mod c)
  have h2 := List.sum_nat_mod (chunks.map List.sum) U32
  rw [List.map_map] at h2
  rw [h1]
  exact h2.symm

theorem diffStep_eq (s : ℚ) (p : ℚ × ℚ) :
    MainMatrix.diffStep s p = s + MainMatrix.specRelErrTerm p.1 p.2 := by
  unfold MainMatrix.diffStep MainMatrix.specRelErrTerm MainMatrix.specRelErr
  split_ifs <;> simp

theorem foldl_diffStep (l : List (ℚ × ℚ)) :
    ∀ init : ℚ,
      l.foldl MainMatrix.diffStep init
        = init + (l.map (fun p => MainMatrix.specRelErrTerm p.1 p.2)).sum := by
  induction l with
  | nil =>
    intro init
    simp
  | cons p t ih =>
    intro init
    rw [List.foldl_cons, ih, diffStep_eq, List.map_cons, List.sum_cons]
    ring

theorem mem_zip_self {α : Type} :
    ∀ (l : List α) (p : α × α), p ∈ l.zip l → p.1 = p.2 := by
  intro l
  induction l with
  | nil =>
    intro p h
    simp at h
  | cons a t ih =>
    intro p h
    rw [List.zip_cons_cons, List.mem_cons] at h
    rcases h with h | h
    · rw [h]
    · exact ih p h

theorem diff_sum_self (cs : List ℚ) : MainMatrix.diff_sum cs cs = 0 := by
  unfold MainMatrix.diff_sum
  rw [foldl_diffStep, zero_add]
  apply List.sum_eq_zero
  intro x hx
  rw [List.mem_map] at hx
  obtain ⟨p, hp, rfl⟩ := hx
  have h := mem_zip_self cs p hp
  unfold MainMatrix.specRelErrTerm MainMatrix.specRelErr
  rw [h]
  simp

theorem trialLoop_all_ok (refS : ℕ) (results : ℕ → ℕ) :
    ∀ (iters start : ℕ), (∀ i, start ≤ i → i < start + iters → results i = refS) →
      MainSum.trialLoop refS results start iters = (iters, none) := by
  intro iters
  induction iters with
  | zero =>
    intro start _
    rfl
  | succ it ih =>
    intro start h
    have h0 : results start = refS := h start le_rfl (by omega)
    have h1 : ∀ i, start + 1 ≤ i → i < start + 1 + it → results i = refS :=
      fun i hi1 hi2 => h i (by omega) (by omega)
    simp [MainSum.trialLoop, MainSum.raiseFail, h0, ih (start + 1) h1]

theorem trialLoop_fail (refS : ℕ) (results : ℕ → ℕ) :
    ∀ (iters start j : ℕ), start ≤ j → j < start + iters →
      results j ≠ refS → (∀ i, start ≤ i → i < j → results i = refS) →
      MainSum.trialLoop refS results start iters
        = (j - start + 1, some "GPU result must be equal to CPU result!") := by
  intro iters
  induction iters with
  | zero =>
    intro start j h1 h2 _ _
    exact absurd h2 (by omega)
  | succ it ih =>
    intro start j h1 h2 hfail hbefore
    by_cases hsj : start = j
    · subst hsj
      have hne : refS ≠ results start := fun hc => hfail hc.symm
      simp [MainSum.trialLoop, MainSum.raiseFail, hne]
    · have hlt : start < j := by omega
      have h0 : results start = refS := hbefore start le_rfl hlt
      have hrec := ih (start + 1) j (by omega) (by omega) hfail
        (fun i hi1 hi2 => hbefore i (by omega) hi2)
      simp [MainSum.trialLoop, MainSum.raiseFail, h0, hrec]
      omega

/-! Claim theorems. -/

/-- C3: the matrix-multiply validator sums, over every output element pair
where the reference or the candidate value is nonzero, the relative error
`|a - b| / max(|a|, |b|)` (and nothing over the pairs where both are
zero), divides the sum by the total element count `M * N`, and the variant
passes if and only if this average is at most 0.01. -/
theorem matrix_validator_avg_relative_error (cs ref : List ℚ) :
    MainMatrix.diff_sum cs ref
      = ((cs.zip ref).map (fun p => MainMatrix.specRelErrTerm p.1 p.2)).sum ∧
    MainMatrix.diff_avg cs ref
      = MainMatrix.diff_sum cs ref / ((MainMatrix.M * MainMatrix.N : ℕ) : ℚ) ∧
    (MainMatrix.variantPasses cs ref ↔ MainMatrix.diff_avg cs ref ≤ 1 / 100) := by
  refine ⟨?_, rfl, ?_⟩
  · unfold MainMatrix.diff_sum
    rw [foldl_diffStep, zero_add]
  · exact not_lt

/-- C6: whenever all generated values are bounded by `UINT_MAX / count`
(the inclusive upper end of the range the generator is called with) and
there are `count` of them, the exact sum does not exceed `UINT_MAX`, and
the `unsigned int` accumulation of `reference_sum` (addition modulo 2^32)
equals the exact integer sum. -/
theorem sum_values_bounded_no_overflow (count : ℕ) (as : List ℕ)
    (hlen : as.length = count)
    (hrange : MainSum.generatedInRange count as) :
    as.sum ≤ UINT_MAX ∧ MainSum.reference_sum as = as.sum := by
  have h1 := List.sum_le_card_nsmul as (UINT_MAX / count) hrange
  rw [smul_eq_mul] at h1
  have hsum : as.sum ≤ UINT_MAX := by
    calc as.sum ≤ as.length * (UINT_MAX / count) := h1
      _ = UINT_MAX / count * count := by rw [hlen, Nat.mul_comm]
      _ ≤ UINT_MAX := Nat.div_mul_le_self _ _
  refine ⟨hsum, ?_⟩
  have hlt : as.sum < U32 := by
    have : UINT_MAX < U32 := by norm_num [UINT_MAX, U32]
    omega
  unfold MainSum.reference_sum
  rw [foldl_addU32 as 0 U32_pos, Nat.zero_add, Nat.mod_eq_of_lt hlt]

/-- Witness for C6 at `count = 3`, `as = [1, 2, 3]`. -/
theorem sum_values_bounded_no_overflow_witness :
    ([1, 2, 3] : List ℕ).sum ≤ UINT_MAX ∧
    MainSum.reference_sum [1, 2, 3] = ([1, 2, 3] : List ℕ).sum :=
  sum_values_bounded_no_overflow 3 [1, 2, 3] rfl
    (by unfold MainSum.generatedInRange; decide)

/-- C7: for every input array, the host-parallel reduction over any
partition of the array into contiguous chunks (chunk-local accumulation
followed by combination of the partial sums, all in `unsigned int`
arithmetic) is bit-for-bit equal to the sequential left-to-right
accumulation, and the sequential accumulation equals the reference sum
computed at generation time. -/
theorem parallel_sum_eq_sequential (as : List ℕ) (chunks : List (List ℕ))
    (h : chunks.flatten = as) :
    MainSum.ompSum chunks = MainSum.cpuSum as ∧
    MainSum.cpuSum as = MainSum.reference_sum as := by
  refine ⟨?_, rfl⟩
  rw [ompSum_eq_mod, cpuSum_eq_mod, h]

/-- Witness for C7 at `as = [1, 2, 3]`, `chunks = [[1, 2], [3]]`. -/
theorem parallel_sum_eq_sequential_witness :
    MainSum.ompSum [[1, 2], [3]] = MainSum.cpuSum [1, 2, 3] ∧
    MainSum.cpuSum [1, 2, 3] = MainSum.reference_sum [1, 2, 3] :=
  parallel_sum_eq_sequential [1, 2, 3] [[1, 2], [3]] rfl

/-- C9: in both programs, every dimension of every variant global work
size is an exact multiple of the corresponding work-group dimension: the
sum variants round `n`, or `n / 64`, up to the next multiple of the
work-group size 128, and the matrix variants use global extents `N` and
`M`, or `M / 4` for the multi-output variant, divisible by their 16 by 16
or 16 by 4 group shape. -/
theorem launch_geometry_divides :
    (MainSum.kernels.all fun k =>
      MainSum.globalWorkSize k % MainSum.workGroupSize == 0) = true ∧
    (MainMatrix.kernels.all fun k =>
      ((MainMatrix.workSizeOf k).globalX % (MainMatrix.workSizeOf k).groupX == 0) &&
      ((MainMatrix.workSizeOf k).globalY % (MainMatrix.workSizeOf k).groupY == 0)) = true := by
  decide

/-- C10: the validator evaluates the quotient `|a - b| / max(|a|, |b|)`
only under the guard that the candidate or the reference element is
nonzero, and under that guard the divisor is nonzero; a pair in which both
values are exactly zero leaves the accumulator unchanged; and a candidate
identical to the reference yields average difference exactly 0 and
passes. -/
theorem validator_no_div_by_zero :
    (∀ a b : ℚ, a ≠ 0 ∨ b ≠ 0 → max |a| |b| ≠ 0) ∧
    (∀ s : ℚ, MainMatrix.diffStep s (0, 0) = s) ∧
    (∀ cs : List ℚ, MainMatrix.diff_avg cs cs = 0 ∧ MainMatrix.variantPasses cs cs) := by
  refine ⟨?_, ?_, ?_⟩
  · intro a b h
    have hpos : 0 < max |a| |b| := by
      rcases h with ha | hb
      · exact lt_of_lt_of_le (abs_pos.mpr ha) (le_max_left _ _)
      · exact lt_of_lt_of_le (abs_pos.mpr hb) (le_max_right _ _)
    exact ne_of_gt hpos
  · intro s
    unfold MainMatrix.diffStep
    simp
  · intro cs
    have h0 : MainMatrix.diff_avg cs cs = 0 := by
      unfold MainMatrix.diff_avg
      rw [diff_sum_self, zero_div]
    refine ⟨h0, ?_⟩
    unfold MainMatrix.variantPasses
    rw [h0]
    norm_num

/-- Witness for C10: the divisor at the pair `(1, 0)` is nonzero, and the
candidate `[1, 2]` compared against itself passes. -/
theorem validator_no_div_by_zero_witness :
    max |(1 : ℚ)| |(0 : ℚ)| ≠ 0 ∧ MainMatrix.variantPasses [1, 2] [1, 2] :=
  ⟨validator_no_div_by_zero.1 1 0 (Or.inl one_ne_zero),
   (validator_no_div_by_zero.2.2 [1, 2]).2⟩

/-- C1 counterexample: with a first variant whose average difference is 1
(a failed validation) and a second variant whose average difference is 0,
only one of the two variant blocks executes — the failing check runs
`return 1` at once instead of continuing to benchmark the remaining
variants and deferring the failure to the final completion status. -/
theorem matrix_softfail_counterexample :
    (MainMatrix.runVariants [1, 0]).1 = 1 ∧ ([(1 : ℚ), 0]).length = 2 := by
  constructor
  · norm_num [MainMatrix.runVariants]
  · rfl

/-- C1 amended: the final status is nonzero exactly when some variant
fails validation; when all variants pass, every block executes and the
status is 0; but when a variant fails, the program prints the diagnostic
and exits with status 1 immediately, executing no block after the first
failing one. -/
theorem matrix_first_fail_exits (ds : List ℚ) :
    ((MainMatrix.runVariants ds).2 ≠ 0 ↔ ∃ d ∈ ds, d > 1 / 100) ∧
    ((∀ d ∈ ds, ¬ d > 1 / 100) → MainMatrix.runVariants ds = (ds.length, 0)) ∧
    (∀ pre d post, ds = pre ++ d :: post → (∀ x ∈ pre, ¬ x > 1 / 100) → d > 1 / 100 →
      MainMatrix.runVariants ds = (pre.length + 1, 1)) := by
  induction ds with
  | nil =>
    refine ⟨by simp [MainMatrix.runVariants], fun _ => rfl, ?_⟩
    intro pre d post heq _ _
    exact absurd heq (by cases pre <;> simp)
  | cons a t ih =>
    obtain ⟨ih1, ih2, ih3⟩ := ih
    by_cases ha : a > 1 / 100
    · have hrun : MainMatrix.runVariants (a :: t) = (1, 1) := by
        simp only [MainMatrix.runVariants, if_pos ha]
      refine ⟨?_, ?_, ?_⟩
      · rw [hrun]
        constructor
        · intro _
          exact ⟨a, List.mem_cons_self a t, ha⟩
        · intro _
          exact one_ne_zero
      · intro hall
        exact absurd ha (hall a (List.mem_cons_self a t))
      · intro pre d post heq hpre hd
        cases pre with
        | nil =>
          simpa using hrun
        | cons p ps =>
          rw [List.cons_append] at heq
          injection heq with h1 h2
          have hp := hpre p (List.mem_cons_self p ps)
          rw [← h1] at hp
          exact absurd ha hp
    · have hrun : MainMatrix.runVariants (a :: t)
          = ((MainMatrix.runVariants t).1 + 1, (MainMatrix.runVariants t).2) := by
        simp only [MainMatrix.runVariants, if_neg ha]
      refine ⟨?_, ?_, ?_⟩
      · rw [hrun]
        constructor
        · intro h
          obtain ⟨d, hd, hgt⟩ := ih1.mp h
          exact ⟨d, List.mem_cons_of_mem a hd, hgt⟩
        · intro h
          obtain ⟨d, hd, hgt⟩ := h
          rcases List.mem_cons.mp hd with rfl | hd2
          · exact absurd hgt ha
          · exact ih1.mpr ⟨d, hd2, hgt⟩
      · intro hall
        have ht := ih2 (fun d hd => hall d (List.mem_cons_of_mem a hd))
        rw [hrun, ht]
        simp
      · intro pre d post heq hpre hd
        cases pre with
        | nil =>
          simp only [List.nil_append] at heq
          injection heq with h1 h2
          rw [h1] at ha
          exact absurd hd ha
        | cons p ps =>
          rw [List.cons_append] at heq
          injection heq with h1 h2
          have ht := ih3 ps d post h2 (fun x hx => hpre x (List.mem_cons_of_mem p hx)) hd
          rw [hrun, ht]
          simp

/-- Witness for C1 amended at the single failing variant list `[1]`. -/
theorem matrix_first_fail_exits_witness :
    MainMatrix.runVariants [1] = (1, 1) :=
  (matrix_first_fail_exits [1]).2.2 [] 1 [] rfl
    (fun x hx => absurd hx (List.not_mem_nil x)) (by norm_num)

/-- C2: in the sum program, a trial whose candidate result differs from
the reference sum makes `EXPECT_THE_SAME` throw immediately: the trial
loop of the offending variant stops right after that trial, and no
further trials or GPU variants run — the uncaught exception surfaces as
the fatal error of the run. Earlier variants whose trials all matched ran
all of their trials. -/
theorem sum_mismatch_fatal (refS : ℕ) (results : String → ℕ → ℕ)
    (pre post : List String) (v : String) (j : ℕ)
    (hj : j < benchmarkingIters)
    (hfail : results v j ≠ refS)
    (hbefore : ∀ i, i < j → results v i = refS)
    (hpre : ∀ u ∈ pre, ∀ i, i < benchmarkingIters → results u i = refS) :
    MainSum.variantLoop refS results (pre ++ v :: post)
      = (pre.map (fun u => (u, benchmarkingIters)) ++ [(v, j + 1)],
         some "GPU result must be equal to CPU result!") := by
  induction pre with
  | nil =>
    have ht := trialLoop_fail refS (results v) benchmarkingIters 0 j (Nat.zero_le j)
      (by omega) hfail (fun i _ hi => hbefore i hi)
    simp [MainSum.variantLoop, ht]
  | cons u us ih =>
    have hu : ∀ i, i < benchmarkingIters → results u i = refS :=
      hpre u (List.mem_cons_self u us)
    have hok := trialLoop_all_ok refS (results u) benchmarkingIters 0
      (fun i _ h2 => hu i (by omega))
    have hrest := ih (fun w hw => hpre w (List.mem_cons_of_mem u hw))
    simp only [List.cons_append, MainSum.variantLoop, hok, List.append_eq, hrest,
      List.map_cons]

/-- Witness for C2: with reference sum 0 and every trial reading back 1,
the first variant fails at its first trial, runs exactly one trial, and
the second variant never runs. -/
theorem sum_mismatch_fatal_witness :
    MainSum.variantLoop 0 (fun _ _ => 1) ["sum_naive", "sum_loop"]
      = ([("sum_naive", 1)], some "GPU result must be equal to CPU result!") :=
  sum_mismatch_fatal 0 (fun _ _ => 1) [] ["sum_loop"] "sum_naive" 0
    (by decide) (by decide)
    (fun i hi => absurd hi (Nat.not_lt_zero i))
    (fun u hu => absurd hu (List.not_mem_nil u))

/-- C4 counterexample: in the matrix program the trial loop body only
launches the kernel, so strictly between two consecutive launches of a
variant there is neither an upload of an input buffer nor a download of
the output buffer; were each launch preceded in its own trial by an
upload and followed in its own trial by a download, such events would
have to occur between consecutive launches. The sum program likewise
never re-uploads its input array between launches. -/
theorem per_trial_transfer_counterexample :
    betweenLaunches MainMatrix.isInputUpload false false
      (MainMatrix.variantEvents "matrix_multiplication_naive") = false ∧
    betweenLaunches MainMatrix.isOutputDownload false false
      (MainMatrix.variantEvents "matrix_multiplication_naive") = false ∧
    betweenLaunches MainSum.isInputUpload false false
      (MainSum.variantEvents "sum_naive") = false := by
  decide

/-- C4 amended: in the matrix program, each variant uploads its two input
buffers exactly once, before the first of its `benchmarkingIters`
launches, and downloads the output buffer exactly once, after the last
launch; in the sum program, each trial writes the zeroed accumulator
before its launch and reads the result back after it (in particular after
the last launch), but the workload input array is uploaded exactly once
for the whole program, before any launch, and never inside a variant
block. -/
theorem transfer_schedule :
    (MainMatrix.kernels.all fun k =>
      ((MainMatrix.variantEvents k).countP MainMatrix.isInputUpload == 2) &&
      (((MainMatrix.variantEvents k).takeWhile (fun e => !isLaunch e)).countP
        MainMatrix.isInputUpload == 2) &&
      ((MainMatrix.variantEvents k).countP isLaunch == benchmarkingIters) &&
      (((MainMatrix.variantEvents k).reverse.takeWhile (fun e => !isLaunch e)).countP
        MainMatrix.isOutputDownload == 1)) = true ∧
    (MainSum.kernels.all fun k =>
      betweenLaunches MainSum.isResultWrite true false (MainSum.variantEvents k) &&
      betweenLaunches MainSum.isResultRead false false (MainSum.variantEvents k) &&
      (((MainSum.variantEvents k).reverse.takeWhile (fun e => !isLaunch e)).countP
        MainSum.isResultRead == 1) &&
      ((MainSum.variantEvents k).countP MainSum.isInputUpload == 0)) = true ∧
    MainSum.harnessEvents.countP MainSum.isInputUpload = 1 ∧
    (MainSum.harnessEvents.takeWhile (fun e => !isLaunch e)).countP
      MainSum.isInputUpload = 1 := by
  decide

/-- C5 counterexample: in the sum program the validation runs inside the
trial loop, so the variant `sum_naive` validates ten times, not exactly
once after all of its trials. -/
theorem validator_once_counterexample :
    ¬ (MainSum.variantEvents "sum_naive").countP isValidate = 1 := by
  decide

/-- C5 amended: in the matrix program each variant validates exactly once,
after all `benchmarkingIters` launches, on the output downloaded after the
last launch (the trace of a variant ends with the download followed by the
validation); in the sum program each variant validates once per trial —
`benchmarkingIters` times — immediately after each trial download, with a
validation between consecutive launches and after the last one. -/
theorem validator_schedule :
    (MainMatrix.kernels.all fun k =>
      ((MainMatrix.variantEvents k).countP isValidate == 1) &&
      ((MainMatrix.variantEvents k).countP isLaunch == benchmarkingIters) &&
      ((MainMatrix.variantEvents k).reverse.take 2
        == [Event.validate k, Event.readBuf "cs_gpu"])) = true ∧
    (MainSum.kernels.all fun k =>
      ((MainSum.variantEvents k).countP isValidate == benchmarkingIters) &&
      betweenLaunches isValidate false false (MainSum.variantEvents k) &&
      ((MainSum.variantEvents k).reverse.take 2
        == [Event.validate k, Event.readBuf "result_gpu"])) = true := by
  decide

/-- C8 counterexample: at a mean per-trial latency of 1 second, the
program reports `gflops / 1 = 2` GFlops, while the operation count
`2 * M * K * N = 2147483648` scaled by `10^9` and divided by the same
latency is `2.147483648`; the C integer division in the `gflops` constant
truncates the operation count. -/
theorem gflops_counterexample :
    MainMatrix.reportedThroughput 1 ≠ MainMatrix.specThroughput 1 := by
  norm_num [MainMatrix.reportedThroughput, MainMatrix.specThroughput,
    MainMatrix.gflops, MainMatrix.M, MainMatrix.K, MainMatrix.N]

/-- C8 amended: the throughput reported for every configuration equals
the operation count `2 * M * K * N` divided by `10^9` with truncating
integer division — which is 2 for these dimensions — divided by the mean
per-trial latency. -/
theorem reported_throughput_truncated (lapAvg : ℚ) :
    MainMatrix.reportedThroughput lapAvg = 2 / lapAvg ∧
    MainMatrix.gflops = 2 := by
  have h2 : MainMatrix.gflops = 2 := by decide
  refine ⟨?_, h2⟩
  unfold MainMatrix.reportedThroughput
  rw [h2]
  norm_num

end LabGPU
